import Mathlib

/-!
Verification of the Scrapy web-novel downloader (src/main.py, src/storage.py,
src/rule_manager.py) against its natural-language specification.

Shallow embedding conventions:
* Python byte strings are `List Nat` (one `Nat` per byte).
* Python `str.strip()` is `pyStrip`/`strip` below (drop whitespace at both ends).
* External collaborators (codec machinery, gzip, CSS selector evaluation,
  `urljoin`) are abstract parameters gathered in the `Codecs` and `Selectors`
  structures; the control flow around them is translated from the source.
* Fallible I/O is made explicit: a `fetch` call consumes a list of per-attempt
  outcomes (`Attempt`), and `StorageHandler.save_chapter` takes a `SaveOutcome`
  saying whether each of its two file writes succeeds.
-/

namespace Scrapy

/-- Bytes of an HTTP body, one `Nat` (0..255) per byte. -/
abbrev Bytes := List Nat

/-- Python `str.strip()` on a list of characters: drop whitespace from both ends. -/
def pyStrip (l : List Char) : List Char :=
  ((l.dropWhile Char.isWhitespace).reverse.dropWhile Char.isWhitespace).reverse

/-- Python `str.strip()` on strings. -/
def strip (s : String) : String :=
  String.mk (pyStrip s.data)

/-- The characters removed by `re.sub(r'[\\/*?:"<>|]', "", ...)` in
`clean_filename` (src/main.py) and `StorageHandler._clean_str` (src/storage.py). -/
def illegalChars : List Char := ['\\', '/', '*', '?', ':', '"', '<', '>', '|']

/-- `re.sub(r'[\\/*?:"<>|]', "", s)`: delete every illegal character. -/
def removeIllegal (s : String) : String :=
  String.mk (s.data.filter (fun c => ¬ c ∈ illegalChars))

/-- `clean_filename` from src/main.py: remove illegal characters, then strip. -/
def clean_filename (s : String) : String :=
  strip (removeIllegal s)

/-- `StorageHandler._clean_str` from src/storage.py: empty (falsy) input maps to
"Unknown", otherwise remove illegal characters and strip. -/
def clean_str (s : String) : String :=
  if s = "" then "Unknown" else strip (removeIllegal s)

/-- Python `f"{idx:04d}"`: decimal, zero-padded on the left to width 4. -/
def pad4 (n : Nat) : String :=
  let s := toString n
  if s.length < 4 then String.mk (List.replicate (4 - s.length) '0') ++ s else s

/-! ## Decoder (inlined in `fetch`, src/main.py lines 50-74) -/

/-- External codec / compression machinery, opaque to the core (spec §1:
selector evaluation and codecs are external collaborators).
* `gunzip raw = some d` models a successful `gzip.decompress`, `none` a failure;
* `tryDecode enc raw = some t` models `raw.decode(enc)` succeeding with `t`,
  `none` a `UnicodeDecodeError`/`LookupError`;
* `decodeIgnore enc raw` models `raw.decode(enc, errors='ignore')`, total. -/
structure Codecs where
  gunzip : Bytes → Option Bytes
  tryDecode : String → Bytes → Option String
  decodeIgnore : String → Bytes → String

/-- The two gzip magic bytes `b'\x1f\x8b'` checked at src/main.py line 51. -/
def gzipMagic : Bytes := [0x1f, 0x8b]

/-- The fixed candidate encodings tried in order at src/main.py line 66. -/
def candidateEncodings : List String := ["utf-8", "gb18030", "gbk", "gb2312", "big5"]

/-- The encoding cascade of src/main.py lines 58-74, applied to the
(possibly decompressed) bytes: a non-`auto` hint is tried first; then the
fixed candidate list in order; if everything fails, decode as utf-8 with
invalid bytes ignored. -/
def decodeBytes (c : Codecs) (encoding : String) (raw : Bytes) : String :=
  let hinted : Option String :=
    if encoding ≠ "auto" then c.tryDecode encoding raw else none
  match hinted with
  | some t => t
  | none =>
    match candidateEncodings.findSome? (fun e => c.tryDecode e raw) with
    | some t => t
    | none => c.decodeIgnore "utf-8" raw

/-- The full byte-to-text step of src/main.py lines 50-74: gzip-magic sniffing
with fallback to the raw bytes on decompression failure, then the encoding
cascade. Total: always returns a string. -/
def decode (c : Codecs) (encoding : String) (raw : Bytes) : String :=
  let raw' := if raw.take 2 = gzipMagic then (c.gunzip raw).getD raw else raw
  decodeBytes c encoding raw'

/-! ## FetchClient (`fetch`, src/main.py lines 41-81) -/

/-- What one attempt of the `session.get` at src/main.py line 45 can produce:
either a transport/timeout exception, or a response with a status code and a
body. -/
inductive Attempt where
  | exc : Attempt
  | resp : Nat → Bytes → Attempt
deriving DecidableEq, Repr

/-- Observable outcome of one `fetch` call: the returned value, how many
attempts were made, and how many 1-second `asyncio.sleep(1)` backoffs ran. -/
structure FetchTrace where
  result : Option String
  attemptsMade : Nat
  sleeps : Nat
deriving DecidableEq, Repr

/-- `RETRIES = 3` from src/main.py line 24. -/
def RETRIES : Nat := 3

/-- `CONCURRENCY = 5` from src/main.py line 22. -/
def CONCURRENCY : Nat := 5

/-- The body of the retry loop in `fetch` (src/main.py lines 43-81), consuming
the list of per-attempt outcomes (already capped at the attempt budget):
a 200 response decodes and returns; any other status returns `None` at once;
an exception falls through to `asyncio.sleep(1)` and the next iteration. -/
def fetchGo (c : Codecs) (encoding : String) : List Attempt → FetchTrace
  | [] => ⟨none, 0, 0⟩
  | Attempt.exc :: rest =>
    let t := fetchGo c encoding rest
    ⟨t.result, t.attemptsMade + 1, t.sleeps + 1⟩
  | Attempt.resp s raw :: _ =>
    if s = 200 then ⟨some (decode c encoding raw), 1, 0⟩ else ⟨none, 1, 0⟩

/-- `fetch(session, url, encoding)` from src/main.py lines 41-81, as a function
of the outcomes the network would yield on each successive attempt; the
`for i in range(RETRIES)` loop caps the attempts at `RETRIES`. -/
def fetch (c : Codecs) (encoding : String) (attempts : List Attempt) : FetchTrace :=
  fetchGo c encoding (attempts.take RETRIES)

/-! ## ChapterExtractor (src/main.py lines 105-118) -/

/-- External CSS selector machinery (spec §1: selector evaluation is an
external primitive). `cssFirst sel html` models `Selector(text=html).css(sel).get()`
(the first match, or `None`); `cssAll sel html` models `.css(sel).getall()`. -/
structure Selectors where
  cssFirst : String → String → Option String
  cssAll : String → String → List String

/-- The per-site rule object consumed by `download_chapter` and `main`
(spec §3 ExtractionRule; the `rules` dict of sites.yaml). -/
structure Rules where
  chapter_list : String
  chapter_link_attr : String
  chapter_title : String
  chapter_content : String

/-- An extracted chapter: title and joined content (spec §3 ChapterRecord). -/
structure Extracted where
  title : String
  content : String
deriving DecidableEq, Repr

/-- The content assembly of src/main.py line 112:
`"\n".join([line.strip() for line in content_lines if line.strip()])`. -/
def joinContent (content_lines : List String) : String :=
  String.intercalate "\n" ((content_lines.map strip).filter (fun l => l ≠ ""))

/-- The extraction step of `download_chapter` (src/main.py lines 105-118):
first title match taken verbatim; content is the newline-join of the non-empty
stripped content matches; Python's `if title and content:` persists only when
the title is present and non-empty and the content is non-empty. -/
def extractChapter (S : Selectors) (rules : Rules) (html : String) : Option Extracted :=
  let title := S.cssFirst rules.chapter_title html
  let content := joinContent (S.cssAll rules.chapter_content html)
  match title with
  | none => none
  | some t => if t ≠ "" ∧ content ≠ "" then some ⟨t, content⟩ else none

/-! ## download_chapter (src/main.py lines 96-120) -/

/-- Observable effects of one `download_chapter` job: whether a network fetch
was issued for the url, whether the politeness `asyncio.sleep(DELAY)` ran
before the semaphore slot was released, and the `(idx, title, content)` handed
to `save_chapter` when extraction succeeded. -/
structure DlResult where
  fetched : Bool
  delayed : Bool
  saved : Option (Nat × String × String)
deriving DecidableEq, Repr

/-- `download_chapter` from src/main.py lines 96-120, as a function of the
per-attempt network outcomes. It fetches unconditionally: no
`is_downloaded`-style index check guards the fetch. On fetch failure
(`if not html:`) it returns early, skipping the politeness delay; otherwise it
extracts and, on success, saves, and in either case sleeps `DELAY` before the
`async with semaphore:` block releases the slot. -/
def download_chapter (S : Selectors) (c : Codecs) (rules : Rules) (encoding : String)
    (attempts : List Attempt) (url : String) (idx : Nat) : DlResult :=
  match (fetch c encoding attempts).result with
  | none => ⟨true, false, none⟩
  | some html =>
    if html = "" then ⟨true, false, none⟩
    else
      match extractChapter S rules html with
      | some e => ⟨true, true, some (idx, e.title, e.content)⟩
      | none => ⟨true, true, none⟩

/-! ## StorageHandler (src/storage.py) -/

/-- One value of the `index.json` map: `{"idx": ..., "title": ..., "file": ...}`
as written by `StorageHandler.save_chapter`. -/
structure Entry where
  idx : Nat
  title : String
  file : String
deriving DecidableEq, Repr

/-- The url-keyed chapter index (`self.downloaded_chapters`), as an association
list url ↦ entry; `List.lookup` gives the dict lookup. -/
abbrev IndexMap := List (String × Entry)

/-- Insert-or-overwrite for the dict assignment
`self.downloaded_chapters[url] = {...}`: later bindings shadow earlier ones
under `List.lookup`. -/
def upsert (m : IndexMap) (k : String) (v : Entry) : IndexMap :=
  (k, v) :: m

/-- What `StorageHandler._load_index` (src/storage.py lines 39-47) can find on
disk: no `index.json`, an unreadable/unparseable one, or a parsed map. -/
inductive IndexFileState where
  | missing : IndexFileState
  | unreadable : IndexFileState
  | parsed : IndexMap → IndexFileState
deriving DecidableEq, Repr

/-- `StorageHandler._load_index`: return the parsed map when the file exists
and parses; on a missing file or any read/parse exception, return `{}`. -/
def load_index : IndexFileState → IndexMap
  | IndexFileState.missing => []
  | IndexFileState.unreadable => []
  | IndexFileState.parsed m => m

/-- `StorageHandler.is_downloaded` (src/storage.py lines 59-61):
`chapter_url in self.downloaded_chapters`. -/
def is_downloaded (m : IndexMap) (url : String) : Bool :=
  (m.lookup url).isSome

/-- The mutable storage state shared by saves: the chapter files on disk
(filename ↦ full file content), the in-memory `downloaded_chapters` map, and
the map last persisted to `index.json`. -/
structure Storage where
  files : List (String × String)
  indexMap : IndexMap
  indexFile : IndexMap
deriving DecidableEq, Repr

/-- Whether each of `save_chapter`'s two file writes succeeds: the chapter
content write (src/storage.py lines 73-75) and the `index.json` rewrite
(lines 86-87). -/
structure SaveOutcome where
  contentWriteOk : Bool
  indexWriteOk : Bool
deriving DecidableEq, Repr

/-- The storage error class of spec §7; `save_chapter` below never returns one,
because the Python code catches every exception. -/
inductive StorageError where
  | writeFailed : StorageError
deriving DecidableEq, Repr

/-- Result of one `StorageHandler.save_chapter` call: the new storage state,
the exception (if any) propagated to the caller, and whether
`logger.error(...)` ran. -/
structure SaveResult where
  state : Storage
  raised : Option StorageError
  errorLogged : Bool
deriving DecidableEq, Repr

/-- Filename `f"{idx:04d}_{safe_title}.txt"` built at src/storage.py line 68. -/
def chapterFilename (idx : Nat) (title : String) : String :=
  pad4 idx ++ "_" ++ clean_str title ++ ".txt"

/-- `StorageHandler.save_chapter` (src/storage.py lines 63-92). Inside one
`try`: (1) write `f"{title}\n\n"` then `content` to the chapter file; (2) update
the in-memory map with the sanitized title; (3) rewrite `index.json` from the
updated map. A failure at step (1) jumps to the `except` before steps (2)-(3);
a failure at step (3) happens after step (2). The `except` logs and swallows
the exception, so nothing is ever raised to the caller. -/
def save_chapter (st : Storage) (o : SaveOutcome) (idx : Nat)
    (title content url : String) : SaveResult :=
  let filename := chapterFilename idx title
  if o.contentWriteOk then
    let files' := (filename, title ++ "\n\n" ++ content) :: st.files
    let map' := upsert st.indexMap url ⟨idx, clean_str title, filename⟩
    if o.indexWriteOk then
      ⟨⟨files', map', map'⟩, none, false⟩
    else
      ⟨⟨files', map', st.indexFile⟩, none, true⟩
  else
    ⟨st, none, true⟩

/-- Every url recorded in the map points at a chapter file that exists. -/
def RecordedBacked (files : List (String × String)) (m : IndexMap) : Prop :=
  ∀ u e, m.lookup u = some e → (files.lookup e.file).isSome = true

/-- The write-then-record invariant of spec §3: every url recorded in the
in-memory index or in the persisted `index.json` points at a chapter file
that exists on disk. -/
def WriteThenRecord (st : Storage) : Prop :=
  RecordedBacked st.files st.indexMap ∧ RecordedBacked st.files st.indexFile

/-! ## TOC enumeration (src/main.py lines 177-189) -/

/-- Python truthiness of `href` at `if not href: continue`: `None` and the
empty string are both falsy. -/
def truthyHref : Option String → Bool
  | none => false
  | some s => s ≠ ""

/-- The task-queue loop of src/main.py lines 177-189, with the running
`enumerate` counter explicit: every matched link advances `idx`, links whose
attribute is missing or empty are skipped, and a kept link becomes a job
`(idx + 1, urljoin(target, href))`. -/
def buildJobsGo (join : String → String → String) (target : String) :
    Nat → List (Option String) → List (Nat × String)
  | _, [] => []
  | idx, h :: rest =>
    match h with
    | none => buildJobsGo join target (idx + 1) rest
    | some s =>
      if s = "" then buildJobsGo join target (idx + 1) rest
      else (idx + 1, join target s) :: buildJobsGo join target (idx + 1) rest

/-- ChapterJob creation from the TOC links: `hrefs` is, for each link matched
by `rules["chapter_list"]`, the value of `link.attrib.get(rules["chapter_link_attr"])`;
`join` is the external `urljoin`. -/
def buildJobs (join : String → String → String) (target : String)
    (hrefs : List (Option String)) : List (Nat × String) :=
  buildJobsGo join target 0 hrefs

/-! ## Scheduler (semaphore-bounded jobs, src/main.py lines 96-120 and 148-193)

Each `download_chapter` task is modelled as a small state machine tracking
where it is relative to the `async with semaphore:` block:

* `waiting`     — task created, still blocked on `semaphore.acquire`;
* `fetching`    — slot held, inside `fetch`;
* `processing`  — fetch returned a page; parsing /(possibly) saving;
* `delaying`    — inside the politeness `asyncio.sleep(DELAY)`;
* `doneEarly`   — fetch failed: the `return` exited the `with`, releasing the
  slot without any politeness delay;
* `doneAfterDelay` — the delay finished and the `with` released the slot.
-/

/-- Where one chapter job stands relative to the semaphore-guarded body. -/
inductive Phase where
  | waiting : Phase
  | fetching : Phase
  | processing : Phase
  | delaying : Phase
  | doneEarly : Phase
  | doneAfterDelay : Phase
deriving DecidableEq, Repr

/-- A job holds an admission slot exactly while it is inside the
`async with semaphore:` block. -/
def holdsSlot : Phase → Bool
  | Phase.fetching => true
  | Phase.processing => true
  | Phase.delaying => true
  | _ => false

/-- A job is "past fetch-start and before persist-completion" while fetching
or processing (spec §8's bounded-concurrency window). -/
def inFlight : Phase → Bool
  | Phase.fetching => true
  | Phase.processing => true
  | _ => false

/-- Scheduler state: the phase of every spawned task. -/
structure SchedState where
  jobs : List Phase
deriving DecidableEq, Repr

/-- Number of jobs currently holding an admission slot; the semaphore counter
is `limit` minus this. -/
def activeCount (s : SchedState) : Nat :=
  s.jobs.countP (fun p => holdsSlot p)

/-- Number of jobs in the fetch-start .. persist-completion window. -/
def inFlightCount (s : SchedState) : Nat :=
  s.jobs.countP (fun p => inFlight p)

/-- One interleaving step of the scheduler with semaphore capacity `limit`:
admission requires a free slot; a fetch either fails (early `return`, slot
released with no delay) or succeeds; persist-completion (or parse failure)
leads into the politeness delay; finishing the delay releases the slot. -/
inductive Step (limit : Nat) : SchedState → SchedState → Prop where
  | acquire (s : SchedState) (i : Nat) :
      s.jobs.get? i = some Phase.waiting → activeCount s < limit →
      Step limit s ⟨s.jobs.set i Phase.fetching⟩
  | fetchFail (s : SchedState) (i : Nat) :
      s.jobs.get? i = some Phase.fetching →
      Step limit s ⟨s.jobs.set i Phase.doneEarly⟩
  | fetchOk (s : SchedState) (i : Nat) :
      s.jobs.get? i = some Phase.fetching →
      Step limit s ⟨s.jobs.set i Phase.processing⟩
  | persistDone (s : SchedState) (i : Nat) :
      s.jobs.get? i = some Phase.processing →
      Step limit s ⟨s.jobs.set i Phase.delaying⟩
  | delayDone (s : SchedState) (i : Nat) :
      s.jobs.get? i = some Phase.delaying →
      Step limit s ⟨s.jobs.set i Phase.doneAfterDelay⟩

/-- States reachable from a fresh task list of any size. -/
inductive Reachable (limit : Nat) : SchedState → Prop where
  | init (n : Nat) : Reachable limit ⟨List.replicate n Phase.waiting⟩
  | step {s s' : SchedState} : Reachable limit s → Step limit s s' →
      Reachable limit s'

/-- The per-job phase changes the code can perform: admission, fetch failure
(early return, no delay), fetch success, persist-completion (or parse
failure) entering the delay, and delay completion. Any phase change of a
`Step` is one of these. -/
def allowedTransition (p q : Phase) : Prop :=
  (p = Phase.waiting ∧ q = Phase.fetching) ∨
  (p = Phase.fetching ∧ q = Phase.processing) ∨
  (p = Phase.fetching ∧ q = Phase.doneEarly) ∨
  (p = Phase.processing ∧ q = Phase.delaying) ∨
  (p = Phase.delaying ∧ q = Phase.doneAfterDelay)

/-! ## Concrete sample instances (used to evaluate theorems on closed inputs) -/

/-- A concrete codec bundle: gzip always fails, only utf-8 decodes (to a fixed
string), the ignore-errors decode returns a fixed fallback string. -/
def sampleCodecs : Codecs where
  gunzip := fun _ => none
  tryDecode := fun enc _ => if enc = "utf-8" then some "decoded" else none
  decodeIgnore := fun _ _ => "fallback"

/-- A concrete selector bundle: the title selector "h1" yields "Title", the
content selector "p" yields one real block among whitespace. -/
def sampleSelectors : Selectors where
  cssFirst := fun sel _ => if sel = "h1" then some "Title" else none
  cssAll := fun sel _ => if sel = "p" then ["  body  ", " ", "x"] else []

/-- A concrete rule object matching `sampleSelectors`. -/
def sampleRules : Rules :=
  ⟨"div.list a", "href", "h1", "p"⟩

/-- A concrete stand-in for `urljoin` that returns the href unchanged. -/
def idJoin : String → String → String := fun _ h => h

/-! ## Helper lemmas -/

theorem pyStrip_length_le (l : List Char) : (pyStrip l).length ≤ l.length := by
  unfold pyStrip
  calc ((l.dropWhile Char.isWhitespace).reverse.dropWhile Char.isWhitespace).reverse.length
      = ((l.dropWhile Char.isWhitespace).reverse.dropWhile Char.isWhitespace).length := by
        simp
    _ ≤ (l.dropWhile Char.isWhitespace).reverse.length :=
        (List.dropWhile_sublist _).length_le
    _ = (l.dropWhile Char.isWhitespace).length := by simp
    _ ≤ l.length := (List.dropWhile_sublist _).length_le

theorem removeIllegal_length_lt (s : String)
    (h : ∃ ch ∈ s.data, ch ∈ illegalChars) :
    (removeIllegal s).data.length < s.data.length := by
  obtain ⟨ch, hm, hc⟩ := h
  refine List.length_filter_lt_length_iff_exists.mpr ⟨ch, hm, ?_⟩
  simp [hc]

theorem removeIllegal_eq_self (s : String)
    (h : ¬ ∃ ch ∈ s.data, ch ∈ illegalChars) : removeIllegal s = s := by
  push_neg at h
  have : s.data.filter (fun c => ¬ c ∈ illegalChars) = s.data :=
    List.filter_eq_self.mpr (by intro a ha; simpa using h a ha)
  simpa [removeIllegal] using congrArg String.mk this

/-- Sanitization changes the title whenever it contains an illegal filename
character or leading/trailing whitespace. -/
theorem clean_str_ne_of (s : String)
    (h : (∃ ch ∈ s.data, ch ∈ illegalChars) ∨ strip s ≠ s) :
    clean_str s ≠ s := by
  by_cases hill : ∃ ch ∈ s.data, ch ∈ illegalChars
  · have hne : s ≠ "" := by
      obtain ⟨ch, hm, _⟩ := hill
      intro he
      rw [he] at hm
      simp at hm
    have hlt : (clean_str s).data.length < s.data.length := by
      have h1 : (clean_str s).data.length ≤ (removeIllegal s).data.length := by
        simp only [clean_str, if_neg hne, strip]
        exact pyStrip_length_le _
      exact lt_of_le_of_lt h1 (removeIllegal_length_lt s hill)
    intro he
    rw [he] at hlt
    exact lt_irrefl _ hlt
  · have hstrip : strip s ≠ s := h.resolve_left hill
    have hne : s ≠ "" := by
      intro he
      rw [he] at hstrip
      exact hstrip rfl
    simpa [clean_str, if_neg hne, removeIllegal_eq_self s hill] using hstrip

theorem joinContent_eq_empty (ls : List String)
    (h : ∀ l ∈ ls, strip l = "") : joinContent ls = "" := by
  have hfil : (ls.map strip).filter (fun l => l ≠ "") = [] := by
    refine List.filter_eq_nil_iff.mpr ?_
    intro a ha
    rcases List.mem_map.mp ha with ⟨x, hx, rfl⟩
    simp [h x hx]
  unfold joinContent
  rw [hfil]
  rfl

/-- Completeness of the retry loop: a run that returns `None` either saw only
exceptions, or hit a non-200 response with only exceptions before it. -/
theorem fetchGo_result_none (c : Codecs) (enc : String) :
    ∀ l : List Attempt, (fetchGo c enc l).result = none →
      (∀ a ∈ l, a = Attempt.exc) ∨
      ∃ k s b, l.get? k = some (Attempt.resp s b) ∧ s ≠ 200 ∧
        ∀ j, j < k → l.get? j = some Attempt.exc := by
  intro l
  induction l with
  | nil =>
    intro _
    left
    intro a ha
    simp at ha
  | cons a rest ih =>
    intro h
    cases a with
    | exc =>
      have h' : (fetchGo c enc rest).result = none := by
        simpa [fetchGo] using h
      rcases ih h' with hall | ⟨k, s, b, hk, hs, hj⟩
      · left
        intro x hx
        rcases List.mem_cons.mp hx with h1 | h2
        · exact h1
        · exact hall x h2
      · right
        refine ⟨k + 1, s, b, by simpa using hk, hs, ?_⟩
        intro j hjk
        cases j with
        | zero => rfl
        | succ j' => simpa using hj j' (by omega)
    | resp st bb =>
      by_cases h200 : st = 200
      · subst h200
        simp [fetchGo] at h
      · right
        exact ⟨0, st, bb, rfl, h200, by intro j hj; omega⟩

theorem buildJobsGo_length (join : String → String → String) (target : String) :
    ∀ (hrefs : List (Option String)) (i : Nat),
      (buildJobsGo join target i hrefs).length = hrefs.countP truthyHref := by
  intro hrefs
  induction hrefs with
  | nil => intro i; simp [buildJobsGo, List.countP_nil]
  | cons h rest ih =>
    intro i
    cases h with
    | none => simp [buildJobsGo, List.countP_cons, truthyHref, ih]
    | some s =>
      by_cases hs : s = ""
      · subst hs
        simp [buildJobsGo, List.countP_cons, truthyHref, ih]
      · simp [buildJobsGo, hs, List.countP_cons, truthyHref, ih]

theorem buildJobsGo_mem (join : String → String → String) (target : String) :
    ∀ (hrefs : List (Option String)) (i k : Nat) (s : String),
      hrefs.get? k = some (some s) → s ≠ "" →
      (i + k + 1, join target s) ∈ buildJobsGo join target i hrefs := by
  intro hrefs
  induction hrefs with
  | nil =>
    intro i k s hk
    simp at hk
  | cons h rest ih =>
    intro i k s hk hs
    cases k with
    | zero =>
      simp at hk
      subst hk
      simp [buildJobsGo, hs]
    | succ k' =>
      have hk' : rest.get? k' = some (some s) := by simpa using hk
      have hmem := ih (i + 1) k' s hk' hs
      have harith : i + 1 + k' + 1 = i + (k' + 1) + 1 := by omega
      rw [harith] at hmem
      cases h with
      | none => simpa [buildJobsGo] using hmem
      | some t =>
        by_cases ht : t = ""
        · subst ht
          simpa [buildJobsGo] using hmem
        · simp [buildJobsGo, ht]
          exact hmem

theorem countP_set_le {α : Type} (q : α → Bool) :
    ∀ (l : List α) (i : Nat) (a b : α), l.get? i = some a →
      (q b = true → q a = true) → (l.set i b).countP q ≤ l.countP q := by
  intro l
  induction l with
  | nil =>
    intro i a b h
    simp at h
  | cons x xs ih =>
    intro i a b h himp
    cases i with
    | zero =>
      simp at h
      subst h
      simp only [List.set, List.countP_cons]
      cases hb : q b
      · simp
      · rw [himp hb]
    | succ n =>
      have h' : xs.get? n = some a := by simpa using h
      simp only [List.set, List.countP_cons]
      have := ih n a b h' himp
      omega

theorem countP_set_add_one {α : Type} (q : α → Bool) :
    ∀ (l : List α) (i : Nat) (a b : α), l.get? i = some a →
      q a = false → q b = true → (l.set i b).countP q = l.countP q + 1 := by
  intro l
  induction l with
  | nil =>
    intro i a b h
    simp at h
  | cons x xs ih =>
    intro i a b h ha hb
    cases i with
    | zero =>
      simp at h
      subst h
      simp only [List.set, List.countP_cons]
      rw [ha, hb]
      simp
    | succ n =>
      have h' : xs.get? n = some a := by simpa using h
      simp only [List.set, List.countP_cons]
      rw [ih n a b h' ha hb]
      omega

theorem get?_set_same {α : Type} (l : List α) (i : Nat) (b p : α)
    (h : (l.set i b).get? i = some p) : p = b := by
  have hlen : i < l.length := by
    have := List.get?_eq_some.mp h
    obtain ⟨hl, _⟩ := this
    simpa using hl
  rw [List.get?_eq_getElem?, List.getElem?_set_self (by simpa using hlen)] at h
  simpa using h.symm

theorem get?_set_other {α : Type} (l : List α) (i j : Nat) (b : α) (hne : i ≠ j) :
    (l.set i b).get? j = l.get? j := by
  rw [List.get?_eq_getElem?, List.get?_eq_getElem?]
  exact List.getElem?_set_ne hne

/-- The semaphore invariant: no reachable scheduler state has more than
`limit` jobs inside the `async with semaphore:` block. -/
theorem activeCount_le (limit : Nat) :
    ∀ s : SchedState, Reachable limit s → activeCount s ≤ limit := by
  intro s h
  induction h with
  | init n =>
    have : activeCount ⟨List.replicate n Phase.waiting⟩ = 0 := by
      simp only [activeCount]
      refine List.countP_eq_zero.mpr ?_
      intro a ha
      rw [List.eq_of_mem_replicate ha]
      decide
    omega
  | @step s' t hr hstep ih =>
    cases hstep with
    | acquire i hw hcnt =>
      have hcount := countP_set_add_one (fun p => holdsSlot p) s'.jobs i
        Phase.waiting Phase.fetching hw (by decide) (by decide)
      simp only [activeCount] at hcnt hcount ⊢
      omega
    | fetchFail i hf =>
      have hcount := countP_set_le (fun p => holdsSlot p) s'.jobs i
        Phase.fetching Phase.doneEarly hf (by decide)
      simp only [activeCount] at ih hcount ⊢
      omega
    | fetchOk i hf =>
      have hcount := countP_set_le (fun p => holdsSlot p) s'.jobs i
        Phase.fetching Phase.processing hf (by decide)
      simp only [activeCount] at ih hcount ⊢
      omega
    | persistDone i hf =>
      have hcount := countP_set_le (fun p => holdsSlot p) s'.jobs i
        Phase.processing Phase.delaying hf (by decide)
      simp only [activeCount] at ih hcount ⊢
      omega
    | delayDone i hf =>
      have hcount := countP_set_le (fun p => holdsSlot p) s'.jobs i
        Phase.delaying Phase.doneAfterDelay hf (by decide)
      simp only [activeCount] at ih hcount ⊢
      omega

theorem inFlightCount_le_activeCount (s : SchedState) :
    inFlightCount s ≤ activeCount s := by
  refine List.countP_mono_left ?_
  intro x _ hx
  cases x <;> first | rfl | exact absurd hx (by decide)

/-- Every phase change a `Step` performs on a job is one of the code's five
transitions; in particular a slot is given up only by `fetching → doneEarly`
(failed fetch, early return) or `delaying → doneAfterDelay` (politeness delay
finished). -/
theorem step_transitions {limit : Nat} {s t : SchedState} (hstep : Step limit s t) :
    ∀ i p q, s.jobs.get? i = some p → t.jobs.get? i = some q → q ≠ p →
      allowedTransition p q := by
  cases hstep with
  | acquire j hw hcnt =>
    intro i p q hp hq hne
    by_cases hij : i = j
    · subst hij
      have hpw : p = Phase.waiting := by rw [hp] at hw; exact Option.some.inj hw
      have hqb : q = Phase.fetching := get?_set_same _ _ _ _ hq
      exact Or.inl ⟨hpw, hqb⟩
    · rw [get?_set_other _ _ _ _ (fun he => hij he.symm), hp] at hq
      exact absurd (Option.some.inj hq).symm hne
  | fetchFail j hf =>
    intro i p q hp hq hne
    by_cases hij : i = j
    · subst hij
      have hpw : p = Phase.fetching := by rw [hp] at hf; exact Option.some.inj hf
      have hqb : q = Phase.doneEarly := get?_set_same _ _ _ _ hq
      exact Or.inr (Or.inr (Or.inl ⟨hpw, hqb⟩))
    · rw [get?_set_other _ _ _ _ (fun he => hij he.symm), hp] at hq
      exact absurd (Option.some.inj hq).symm hne
  | fetchOk j hf =>
    intro i p q hp hq hne
    by_cases hij : i = j
    · subst hij
      have hpw : p = Phase.fetching := by rw [hp] at hf; exact Option.some.inj hf
      have hqb : q = Phase.processing := get?_set_same _ _ _ _ hq
      exact Or.inr (Or.inl ⟨hpw, hqb⟩)
    · rw [get?_set_other _ _ _ _ (fun he => hij he.symm), hp] at hq
      exact absurd (Option.some.inj hq).symm hne
  | persistDone j hf =>
    intro i p q hp hq hne
    by_cases hij : i = j
    · subst hij
      have hpw : p = Phase.processing := by rw [hp] at hf; exact Option.some.inj hf
      have hqb : q = Phase.delaying := get?_set_same _ _ _ _ hq
      exact Or.inr (Or.inr (Or.inr (Or.inl ⟨hpw, hqb⟩)))
    · rw [get?_set_other _ _ _ _ (fun he => hij he.symm), hp] at hq
      exact absurd (Option.some.inj hq).symm hne
  | delayDone j hf =>
    intro i p q hp hq hne
    by_cases hij : i = j
    · subst hij
      have hpw : p = Phase.delaying := by rw [hp] at hf; exact Option.some.inj hf
      have hqb : q = Phase.doneAfterDelay := get?_set_same _ _ _ _ hq
      exact Or.inr (Or.inr (Or.inr (Or.inr ⟨hpw, hqb⟩)))
    · rw [get?_set_other _ _ _ _ (fun he => hij he.symm), hp] at hq
      exact absurd (Option.some.inj hq).symm hne

theorem lookup_cons_isSome {β : Type} (l : List (String × β)) (k u : String) (v : β)
    (h : (l.lookup u).isSome = true) : (((k, v) :: l).lookup u).isSome = true := by
  by_cases hk : u = k
  · subst hk
    simp [List.lookup]
  · have hbeq : (u == k) = false := beq_eq_false_iff_ne.mpr hk
    simpa only [List.lookup, hbeq] using h

theorem recordedBacked_cons (files : List (String × String)) (m : IndexMap)
    (fn c : String) (h : RecordedBacked files m) :
    RecordedBacked ((fn, c) :: files) m := by
  intro u e he
  exact lookup_cons_isSome _ _ _ _ (h u e he)

theorem recordedBacked_upsert (files : List (String × String)) (m : IndexMap)
    (fn c url : String) (entry : Entry) (hfe : entry.file = fn)
    (h : RecordedBacked files m) :
    RecordedBacked ((fn, c) :: files) (upsert m url entry) := by
  intro u e he
  by_cases hu : u = url
  · subst hu
    have heq : entry = e := by simpa [upsert, List.lookup] using he
    subst heq
    simp [List.lookup, hfe]
  · have hbeq : (u == url) = false := beq_eq_false_iff_ne.mpr hu
    have he' : m.lookup u = some e := by simpa [upsert, List.lookup, hbeq] using he
    exact lookup_cons_isSome _ _ _ _ (h u e he')

/-! ## Claim theorems -/

/-- C10: if `index.json` does not exist, or exists but cannot be read or
parsed, `StorageHandler._load_index` returns the empty map without raising;
`is_downloaded` is then false for every url, so a corrupt index silently
disables resume instead of aborting the job. -/
theorem load_index_corrupt_resets (fs : IndexFileState)
    (h : fs = IndexFileState.missing ∨ fs = IndexFileState.unreadable) :
    load_index fs = [] ∧ ∀ url, is_downloaded (load_index fs) url = false := by
  rcases h with h | h <;> subst h <;> exact ⟨rfl, fun url => rfl⟩

/-- Witness for C10 at the missing-index state. -/
theorem load_index_corrupt_resets_witness :
    load_index IndexFileState.missing = [] ∧
    is_downloaded (load_index IndexFileState.missing) "http://x/1" = false :=
  ⟨(load_index_corrupt_resets IndexFileState.missing (Or.inl rfl)).1,
   (load_index_corrupt_resets IndexFileState.missing (Or.inl rfl)).2 "http://x/1"⟩

/-- C7 counterexample: at a call whose chapter-content write fails,
`StorageHandler.save_chapter` raises nothing — the claimed StorageError never
reaches the caller. -/
theorem save_chapter_error_swallowed_cex :
    (⟨false, true⟩ : SaveOutcome).contentWriteOk = false ∧
    (save_chapter ⟨[], [], []⟩ ⟨false, true⟩ 1 "T" "B" "u").raised = none ∧
    (save_chapter ⟨[], [], []⟩ ⟨false, true⟩ 1 "T" "B" "u").errorLogged = true := by
  decide

/-- C7 (amended): when either the content write or the index write fails,
`StorageHandler.save_chapter` catches the exception and logs it; it never
propagates a StorageError, so the caller cannot observe from the call that
the save did not complete (only the log records it). -/
theorem save_chapter_logs_not_raises (st : Storage) (o : SaveOutcome) (idx : Nat)
    (title content url : String) :
    (save_chapter st o idx title content url).raised = none ∧
    (o.contentWriteOk = false ∨ o.indexWriteOk = false →
      (save_chapter st o idx title content url).errorLogged = true) ∧
    (o.contentWriteOk = true → o.indexWriteOk = true →
      (save_chapter st o idx title content url).errorLogged = false) := by
  obtain ⟨co, io⟩ := o
  cases co <;> cases io <;> simp [save_chapter]

/-- Witness for C7's amended theorem at a failing index write. -/
theorem save_chapter_logs_not_raises_witness :
    (save_chapter ⟨[], [], []⟩ ⟨true, false⟩ 2 "T2" "B2" "u2").raised = none ∧
    (save_chapter ⟨[], [], []⟩ ⟨true, false⟩ 2 "T2" "B2" "u2").errorLogged = true :=
  ⟨(save_chapter_logs_not_raises ⟨[], [], []⟩ ⟨true, false⟩ 2 "T2" "B2" "u2").1,
   (save_chapter_logs_not_raises ⟨[], [], []⟩ ⟨true, false⟩ 2 "T2" "B2" "u2").2.1
     (Or.inr rfl)⟩

/-- C2: the index entry is inserted and `index.json` rewritten only after the
chapter-file write succeeded; a failed content write leaves the state (both
the in-memory map and the index file) untouched; hence the write-then-record
invariant — every url in the index corresponds to a chapter file already
written — is preserved by every `save_chapter` call. -/
theorem save_chapter_write_then_record (st : Storage) (o : SaveOutcome)
    (idx : Nat) (title content url : String) :
    (o.contentWriteOk = false → (save_chapter st o idx title content url).state = st) ∧
    ((save_chapter st o idx title content url).state.indexFile ≠ st.indexFile →
      o.contentWriteOk = true) ∧
    (WriteThenRecord st →
      WriteThenRecord (save_chapter st o idx title content url).state) := by
  obtain ⟨co, io⟩ := o
  refine ⟨?_, ?_, ?_⟩
  · intro h
    cases co
    · rfl
    · simp at h
  · intro h
    cases co
    · exact absurd rfl h
    · rfl
  · intro hinv
    cases co
    · exact hinv
    · cases io <;>
      · refine ⟨?_, ?_⟩ <;>
        simp only [save_chapter, if_true, if_false, Bool.true_eq_false] <;>
        first
        | exact recordedBacked_upsert st.files st.indexMap _ _ url
            ⟨idx, clean_str title, chapterFilename idx title⟩ rfl hinv.1
        | exact recordedBacked_cons st.files st.indexFile _ _ hinv.2

/-- Witness for C2 at a concrete successful save from the empty state. -/
theorem save_chapter_write_then_record_witness :
    WriteThenRecord ⟨[], [], []⟩ ∧
    WriteThenRecord (save_chapter ⟨[], [], []⟩ ⟨true, true⟩ 1 "T" "B" "u").state := by
  have hinv : WriteThenRecord ⟨[], [], []⟩ := by
    constructor <;> intro u e he <;> simp [List.lookup] at he
  exact ⟨hinv,
    (save_chapter_write_then_record ⟨[], [], []⟩ ⟨true, true⟩ 1 "T" "B" "u").2.2 hinv⟩

/-- C9: with a successful content write, the chapter file starts with the raw
title exactly as extracted (first line `title`, blank line, content) while the
index entry records the sanitized title; whenever the title contains an
illegal filename character or leading/trailing whitespace, the sanitized title
differs from the raw title in the file. -/
theorem save_chapter_raw_file_sanitized_index (st : Storage) (o : SaveOutcome)
    (idx : Nat) (title content url : String) (hco : o.contentWriteOk = true) :
    ((save_chapter st o idx title content url).state.files.lookup
        (chapterFilename idx title) = some (title ++ "\n\n" ++ content)) ∧
    ((save_chapter st o idx title content url).state.indexMap.lookup url =
        some ⟨idx, clean_str title, chapterFilename idx title⟩) ∧
    ((∃ ch ∈ title.data, ch ∈ illegalChars) ∨ strip title ≠ title →
        clean_str title ≠ title) := by
  obtain ⟨co, io⟩ := o
  simp only at hco
  subst hco
  cases io <;>
    exact ⟨by simp [save_chapter, List.lookup],
           by simp [save_chapter, upsert, List.lookup],
           fun h => clean_str_ne_of title h⟩

/-- Witness for C9 at a title with an illegal character and padding spaces. -/
theorem save_chapter_raw_file_sanitized_index_witness :
    ((save_chapter ⟨[], [], []⟩ ⟨true, true⟩ 1 " T:1 " "B" "u").state.files.lookup
        (chapterFilename 1 " T:1 ") = some (" T:1 " ++ "\n\n" ++ "B")) ∧
    clean_str " T:1 " ≠ " T:1 " := by
  have h := save_chapter_raw_file_sanitized_index ⟨[], [], []⟩ ⟨true, true⟩ 1
    " T:1 " "B" "u" rfl
  exact ⟨h.1, h.2.2 (Or.inl ⟨':', by decide, by decide⟩)⟩

/-- C3 counterexample: with three matched links of which the FIRST lacks the
link attribute, two jobs are created but their indices are 2 and 3, not the
claimed 1 and 2 â the skipped link consumed an index. -/
theorem toc_indices_cex :
    (buildJobs idJoin "t" [none, some "a", some "b"]).length = 2 ∧
    (buildJobs idJoin "t" [none, some "a", some "b"]).map Prod.fst = [2, 3] ∧
    ¬ (buildJobs idJoin "t" [none, some "a", some "b"]).map Prod.fst = [1, 2] := by
  decide

/-- C3 (amended): indices are 1-based positions of the link in the FULL list
matched by the chapter-list selector, as produced by Python enumerate; links
whose attribute is missing or empty are skipped but still consume an index.
With 3 matched links one of which lacks the attribute, 2 jobs are created
with indices {2,3}, {1,3} or {1,2} according to which link was skipped. -/
theorem toc_indexing (join : String → String → String) (target : String) :
    (∀ hrefs : List (Option String),
        (buildJobs join target hrefs).length = hrefs.countP truthyHref) ∧
    (∀ (hrefs : List (Option String)) (k : Nat) (s : String),
        hrefs.get? k = some (some s) → s ≠ "" →
        (k + 1, join target s) ∈ buildJobs join target hrefs) ∧
    ((buildJobs idJoin "t" [none, some "a", some "b"]).map Prod.fst = [2, 3]) ∧
    ((buildJobs idJoin "t" [some "a", none, some "b"]).map Prod.fst = [1, 3]) ∧
    ((buildJobs idJoin "t" [some "a", some "b", none]).map Prod.fst = [1, 2]) := by
  refine ⟨?_, ?_, by decide, by decide, by decide⟩
  · intro hrefs
    exact buildJobsGo_length join target hrefs 0
  · intro hrefs k s hk hs
    have h := buildJobsGo_mem join target hrefs 0 k s hk hs
    simpa using h

/-- Witness for C3's amended theorem on a concrete link list. -/
theorem toc_indexing_witness :
    (2, "a") ∈ buildJobs idJoin "t" [none, some "a"] ∧
    (buildJobs idJoin "t" [none, some "a"]).length =
      ([none, some "a"] : List (Option String)).countP truthyHref := by
  refine ⟨?_, (toc_indexing idJoin "t").1 [none, some "a"]⟩
  have h := (toc_indexing idJoin "t").2.1 [none, some "a"] 1 "a" rfl (by decide)
  simpa [idJoin] using h

/-- C1 (code bug): `download_chapter` never consults the index:
it fetches unconditionally, and on a successful fetch and extraction it
rewrites the chapter file, even for a url marked done in a loaded index. The
`is_downloaded` hypothesis below is demonstrably ignored by the code. -/
theorem download_ignores_index (m : IndexMap) (url : String) (S : Selectors)
    (c : Codecs) (rules : Rules) (enc : String) (attempts : List Attempt) (idx : Nat)
    (hdone : is_downloaded m url = true) :
    (download_chapter S c rules enc attempts url idx).fetched = true ∧
    (∀ html e, (fetch c enc attempts).result = some html → html ≠ "" →
        extractChapter S rules html = some e →
        (download_chapter S c rules enc attempts url idx).saved =
          some (idx, e.title, e.content)) := by
  constructor
  · unfold download_chapter
    cases hres : (fetch c enc attempts).result with
    | none => rfl
    | some html =>
      by_cases hh : html = ""
      · simp [hh]
      · cases hx : extractChapter S rules html <;> simp [hh, hx]
  · intro html e hres hh hx
    unfold download_chapter
    rw [hres]
    simp [hh, hx]

/-- Witness for C1: the url is marked done in the index, yet the job fetches
and saves. -/
theorem download_ignores_index_witness :
    is_downloaded [("u", ⟨1, "T", "0001_T.txt"⟩)] "u" = true ∧
    (download_chapter sampleSelectors sampleCodecs sampleRules "auto"
        [Attempt.resp 200 [65]] "u" 1).fetched = true ∧
    (download_chapter sampleSelectors sampleCodecs sampleRules "auto"
        [Attempt.resp 200 [65]] "u" 1).saved = some (1, "Title", "body\nx") := by
  have h := download_ignores_index [("u", ⟨1, "T", "0001_T.txt"⟩)] "u"
    sampleSelectors sampleCodecs sampleRules "auto" [Attempt.resp 200 [65]] 1
    (by decide)
  refine ⟨by decide, h.1, ?_⟩
  exact h.2 "decoded" ⟨"Title", "body\nx"⟩ (by decide) (by decide) (by decide)

/-- C4 counterexample: 204 is a 2xx status, yet `fetch` returns None on it
instead of the decoded text â success requires status exactly 200. -/
theorem fetch_2xx_cex :
    (200 ≤ 204 ∧ 204 < 300) ∧
    (fetch sampleCodecs "auto" [Attempt.resp 204 [65]]).result = none ∧
    (fetch sampleCodecs "auto" [Attempt.resp 204 [65]]).result ≠
      some (decode sampleCodecs "auto" [65]) := by
  decide

/-- C4 (amended): `fetch` returns None immediately on any response whose
status is not exactly 200 (including other 2xx codes) without consuming
further attempts; exceptions are retried up to RETRIES attempts with a fixed
1-second sleep after each failed attempt; the first 200 response returns the
decoded text with the remaining budget unused; None results only from a
non-200 response or from all attempts exhausted by exceptions. -/
theorem fetch_retry_policy (c : Codecs) (enc : String) :
    (∀ s b rest, s ≠ 200 →
        fetch c enc (Attempt.resp s b :: rest) = ⟨none, 1, 0⟩) ∧
    (∀ b rest, fetch c enc (Attempt.resp 200 b :: rest) =
        ⟨some (decode c enc b), 1, 0⟩) ∧
    (∀ k b rest, k < RETRIES →
        fetch c enc (List.replicate k Attempt.exc ++ Attempt.resp 200 b :: rest) =
          ⟨some (decode c enc b), k + 1, k⟩) ∧
    (∀ attempts : List Attempt, RETRIES ≤ attempts.length →
        (∀ a ∈ attempts, a = Attempt.exc) →
        fetch c enc attempts = ⟨none, RETRIES, RETRIES⟩) ∧
    (∀ attempts : List Attempt, (fetch c enc attempts).result = none →
        (∀ a ∈ attempts.take RETRIES, a = Attempt.exc) ∨
        ∃ k s b, (attempts.take RETRIES).get? k = some (Attempt.resp s b) ∧
          s ≠ 200 ∧ ∀ j, j < k → (attempts.take RETRIES).get? j = some Attempt.exc) := by
  refine ⟨?_, ?_, ?_, ?_, ?_⟩
  · intro s b rest hs
    simp [fetch, RETRIES, fetchGo, hs]
  · intro b rest
    simp [fetch, RETRIES, fetchGo]
  · intro k b rest hk
    have hk3 : k < 3 := hk
    interval_cases k <;> simp [fetch, RETRIES, fetchGo, List.replicate]
  · intro attempts hlen hall
    have hrep : attempts = List.replicate attempts.length Attempt.exc :=
      List.eq_replicate_of_mem hall
    have h3 : min RETRIES attempts.length = RETRIES := Nat.min_eq_left hlen
    have htake : attempts.take RETRIES = List.replicate RETRIES Attempt.exc := by
      conv_lhs => rw [hrep]
      rw [List.take_replicate, h3]
    unfold fetch
    rw [htake]
    rfl
  · intro attempts h
    exact fetchGo_result_none c enc (attempts.take RETRIES) h

/-- Witness for C4's amended theorem: a 404 fails immediately; three
exceptions exhaust the budget with three backoff sleeps. -/
theorem fetch_retry_policy_witness :
    (404 : Nat) ≠ 200 ∧
    fetch sampleCodecs "auto" [Attempt.resp 404 []] = ⟨none, 1, 0⟩ ∧
    fetch sampleCodecs "auto" [Attempt.exc, Attempt.exc, Attempt.exc] =
      ⟨none, RETRIES, RETRIES⟩ := by
  refine ⟨by decide, ?_, ?_⟩
  · exact (fetch_retry_policy sampleCodecs "auto").1 404 [] [] (by decide)
  · exact (fetch_retry_policy sampleCodecs "auto").2.2.2.1
      [Attempt.exc, Attempt.exc, Attempt.exc] (by decide) (by decide)

/-- C5: the decoder is total by construction (`decode` returns a `String` for
every input); on a gzip-magic input with a valid payload it decodes the
decompressed bytes, otherwise the raw bytes; a non-auto hint is tried first,
then the fixed candidate list in order, and if everything fails the first
candidate (utf-8) is used with invalid-byte removal. -/
theorem decode_total_cascade (c : Codecs) (enc : String) (raw : Bytes) :
    (∀ d, raw.take 2 = gzipMagic → c.gunzip raw = some d →
        decode c enc raw = decodeBytes c enc d) ∧
    (raw.take 2 = gzipMagic → c.gunzip raw = none →
        decode c enc raw = decodeBytes c enc raw) ∧
    (raw.take 2 ≠ gzipMagic → decode c enc raw = decodeBytes c enc raw) ∧
    (∀ t, enc ≠ "auto" → c.tryDecode enc raw = some t →
        decodeBytes c enc raw = t) ∧
    ((enc = "auto" ∨ c.tryDecode enc raw = none) →
        decodeBytes c enc raw = (candidateEncodings.findSome?
          (fun e => c.tryDecode e raw)).getD (c.decodeIgnore "utf-8" raw)) ∧
    ((enc = "auto" ∨ c.tryDecode enc raw = none) →
        (∀ e ∈ candidateEncodings, c.tryDecode e raw = none) →
        decodeBytes c enc raw = c.decodeIgnore "utf-8" raw) := by
  have hcasc : (enc = "auto" ∨ c.tryDecode enc raw = none) →
      decodeBytes c enc raw = (candidateEncodings.findSome?
        (fun e => c.tryDecode e raw)).getD (c.decodeIgnore "utf-8" raw) := by
    intro h
    rcases h with he | ht
    · subst he
      cases hf : candidateEncodings.findSome? (fun e => c.tryDecode e raw) <;>
        simp [decodeBytes, hf]
    · by_cases he : enc = "auto"
      · subst he
        cases hf : candidateEncodings.findSome? (fun e => c.tryDecode e raw) <;>
          simp [decodeBytes, hf]
      · cases hf : candidateEncodings.findSome? (fun e => c.tryDecode e raw) <;>
          simp [decodeBytes, he, ht, hf]
  refine ⟨?_, ?_, ?_, ?_, hcasc, ?_⟩
  · intro d h1 h2
    simp [decode, h1, h2]
  · intro h1 h2
    simp [decode, h1, h2]
  · intro h1
    simp [decode, h1]
  · intro t hne ht
    simp [decodeBytes, hne, ht]
  · intro h hall
    rw [hcasc h, List.findSome?_eq_none_iff.mpr hall]
    rfl

/-- Witness for C5: gzip magic present but decompression fails, so the raw
bytes are decoded. -/
theorem decode_total_cascade_witness :
    ([0x1f, 0x8b, 0x00] : Bytes).take 2 = gzipMagic ∧
    sampleCodecs.gunzip [0x1f, 0x8b, 0x00] = none ∧
    decode sampleCodecs "auto" [0x1f, 0x8b, 0x00] =
      decodeBytes sampleCodecs "auto" [0x1f, 0x8b, 0x00] := by
  refine ⟨by decide, rfl, ?_⟩
  exact (decode_total_cascade sampleCodecs "auto" [0x1f, 0x8b, 0x00]).2.1
    (by decide) rfl

/-- C6: the first title-selector match is taken verbatim as the title; the
content is the ordered newline-join of the non-empty stripped content-selector
matches; extraction yields nothing (and `download_chapter` saves nothing) when
the title is absent or the content is empty after stripping and filtering, in
particular when every content match is whitespace-only. -/
theorem extract_chapter_spec (S : Selectors) (rules : Rules) (html : String) :
    (∀ t, S.cssFirst rules.chapter_title html = some t → t ≠ "" →
        joinContent (S.cssAll rules.chapter_content html) ≠ "" →
        extractChapter S rules html =
          some ⟨t, joinContent (S.cssAll rules.chapter_content html)⟩) ∧
    (S.cssFirst rules.chapter_title html = none →
        extractChapter S rules html = none) ∧
    (joinContent (S.cssAll rules.chapter_content html) = "" →
        extractChapter S rules html = none) ∧
    ((∀ l ∈ S.cssAll rules.chapter_content html, strip l = "") →
        extractChapter S rules html = none) ∧
    (∀ c enc attempts url idx, extractChapter S rules html = none →
        (fetch c enc attempts).result = some html →
        (download_chapter S c rules enc attempts url idx).saved = none) := by
  have hc3 : joinContent (S.cssAll rules.chapter_content html) = "" →
      extractChapter S rules html = none := by
    intro h
    unfold extractChapter
    cases hT : S.cssFirst rules.chapter_title html
    · rfl
    · simp [h]
  refine ⟨?_, ?_, hc3, ?_, ?_⟩
  · intro t h1 h2 h3
    simp [extractChapter, h1, h2, h3]
  · intro h
    simp [extractChapter, h]
  · intro hws
    exact hc3 (joinContent_eq_empty _ hws)
  · intro c enc attempts url idx hx hres
    unfold download_chapter
    rw [hres]
    by_cases hh : html = "" <;> simp [hh, hx]

/-- Witness for C6 on the sample selectors: whitespace-only matches are
dropped and the remaining blocks are joined with a newline. -/
theorem extract_chapter_spec_witness :
    sampleSelectors.cssFirst sampleRules.chapter_title "<html>" = some "Title" ∧
    extractChapter sampleSelectors sampleRules "<html>" =
      some ⟨"Title", "body\nx"⟩ := by
  refine ⟨by decide, ?_⟩
  have h := (extract_chapter_spec sampleSelectors sampleRules "<html>").1 "Title"
    (by decide) (by decide) (by decide)
  have hj : joinContent (sampleSelectors.cssAll sampleRules.chapter_content "<html>") =
      "body\nx" := by decide
  rw [hj] at h
  exact h

/-- C8 counterexample: a job whose fetch fails releases its admission slot by
an early return with NO politeness delay and no persist: the state with the
job done-without-delay is reachable, refuting "released only after the
politeness delay following persist". -/
theorem scheduler_release_without_delay_cex :
    Step 1 ⟨[Phase.waiting]⟩ ⟨[Phase.fetching]⟩ ∧
    Step 1 ⟨[Phase.fetching]⟩ ⟨[Phase.doneEarly]⟩ ∧
    Reachable 1 ⟨[Phase.doneEarly]⟩ ∧
    holdsSlot Phase.doneEarly = false := by
  have h1 : Step 1 ⟨[Phase.waiting]⟩ ⟨[Phase.fetching]⟩ :=
    @Step.acquire 1 ⟨[Phase.waiting]⟩ 0 rfl (by decide)
  have h2 : Step 1 ⟨[Phase.fetching]⟩ ⟨[Phase.doneEarly]⟩ :=
    @Step.fetchFail 1 ⟨[Phase.fetching]⟩ 0 rfl
  have hinit : Reachable 1 ⟨[Phase.waiting]⟩ := @Reachable.init 1 1
  exact ⟨h1, h2, Reachable.step (Reachable.step hinit h1) h2, rfl⟩

/-- C8 (amended): for every limit ≥ 1 and any number of jobs, no reachable
scheduler state has more than limit jobs between fetch-start and
persist-completion (the semaphore bounds admission); a slot is released after
the politeness delay whenever the fetch succeeded (whether or not extraction
or persist succeeded), and the only release without the delay is the early
return on fetch failure. -/
theorem scheduler_bounded_concurrency :
    (∀ (limit : Nat) (s : SchedState), 1 ≤ limit → Reachable limit s →
        inFlightCount s ≤ limit) ∧
    (∀ (limit : Nat) (s t : SchedState), Step limit s t →
        ∀ i p q, s.jobs.get? i = some p → t.jobs.get? i = some q → q ≠ p →
          allowedTransition p q) := by
  constructor
  · intro limit s _ hr
    exact le_trans (inFlightCount_le_activeCount s) (activeCount_le limit s hr)
  · intro limit s t hstep
    exact step_transitions hstep

/-- Witness for C8's amended theorem at a singleton job list with limit 1. -/
theorem scheduler_bounded_concurrency_witness :
    (1 : Nat) ≤ 1 ∧ inFlightCount ⟨[Phase.waiting]⟩ ≤ 1 :=
  ⟨by decide, scheduler_bounded_concurrency.1 1 ⟨[Phase.waiting]⟩ (by decide)
    (@Reachable.init 1 1)⟩

end Scrapy
